import Mathlib

/-!
Shallow embedding of `idgenerator/idgenerator.go` and verification of the
specification's claims about it.

Modelling choices, each forced by the Go source:
* the struct `IDGenerator` is a Lean structure holding the same fields;
  the `sync.Mutex` has no functional content and is omitted;
* `usedMap : map[int64]bool` only ever stores `true` and is queried purely
  for key membership, so it is modelled as the `Finset Int` of its keys;
* `int64` is modelled as `Int`: no claim exercises 64-bit overflow;
* Go's `%` on `int64` truncates toward zero, which is `Int.tmod`;
* the `for` loop in `Allocate` is written with an explicit fuel argument
  (the Go loop is unbounded); `Allocate` runs it with fuel
  `valueRange.toNat`, and `allocateLoop_stable` proves that any larger
  fuel yields the same outcome whenever the cursor invariant
  `0 ≤ offset < valueRange` holds, so the fuel is not a semantic cutoff;
* the `for` loop in `AllocateWithOffset` terminates structurally (its
  `current` strictly increases toward `maxValue`), so it is defined by
  well-founded recursion with no fuel;
* the `fmt.Printf` diagnostic in `FreeID` has no functional effect and is
  not modelled.
-/

/-- State of the Go struct `IDGenerator` (the mutex is omitted; `usedMap`
is the finite set of keys of the Go map). -/
structure IDGenerator where
  minValue : Int
  maxValue : Int
  valueRange : Int
  offset : Int
  usedMap : Finset Int
deriving DecidableEq

/-- Go `init`: record `minValue` and `maxValue`, derive
`valueRange = maxValue - minValue + 1`, start the cursor at `0` with an
empty map. -/
def IDGenerator.init (minValue maxValue : Int) : IDGenerator :=
  { minValue := minValue
    maxValue := maxValue
    valueRange := maxValue - minValue + 1
    offset := 0
    usedMap := ∅ }

/-- Go `NewGenerator`: build a fresh generator via `init`. -/
def NewGenerator (minValue maxValue : Int) : IDGenerator :=
  IDGenerator.init minValue maxValue

/-- Go `updateOffset`: `offset++` followed by `offset %= valueRange`
(Go's `%` truncates toward zero, i.e. `Int.tmod`). -/
def IDGenerator.updateOffset (g : IDGenerator) : IDGenerator :=
  { g with offset := (g.offset + 1).tmod g.valueRange }

/-- The scan loop of Go `Allocate`.  `offsetBegin` is the saved starting
cursor, `off` the current cursor value.  The result is the loop's outcome
(`some off` at the `break`, `none` at the error return) paired with the
final value of the mutated `offset` field.  Each loop-body execution
consumes one unit of fuel; the Go loop is unbounded, and
`allocateLoop_stable` shows fuel `valueRange.toNat` already reaches the
loop's answer under the cursor invariant. -/
def allocateLoop (m : Finset Int) (valueRange offsetBegin : Int) :
    Nat → Int → Option Int × Int
  | 0, off => (none, off)
  | fuel + 1, off =>
    if off ∈ m then
      let off2 := (off + 1).tmod valueRange
      if off2 = offsetBegin then (none, off2)
      else allocateLoop m valueRange offsetBegin fuel off2
    else (some off, off)

/-- Go `Allocate`: scan from the cursor for a free offset; on success mark
it used, return `offset + minValue` and advance the cursor once more; on
exhaustion return the error (modelled as `none`) with the cursor as the
loop left it. -/
def IDGenerator.Allocate (g : IDGenerator) : Option Int × IDGenerator :=
  match allocateLoop g.usedMap g.valueRange g.offset g.valueRange.toNat g.offset with
  | (none, offEnd) => (none, { g with offset := offEnd })
  | (some off, _) =>
    let g1 : IDGenerator := { g with usedMap := insert off g.usedMap, offset := off }
    (some (off + g.minValue), g1.updateOffset)

/-- The scan loop of Go `AllocateWithOffset`: while `current` is a key of
the map, increment it, failing as soon as it would exceed `maxValue`. -/
def allocateWithOffsetLoop (m : Finset Int) (maxValue current : Int) : Option Int :=
  if current ∈ m then
    if h : current + 1 > maxValue then none
    else allocateWithOffsetLoop m maxValue (current + 1)
  else some current
termination_by (maxValue + 1 - current).toNat
decreasing_by omega

/-- Iteration count (number of loop-body executions) of the scan loop of
Go `AllocateWithOffset`, mirroring `allocateWithOffsetLoop`. -/
def allocateWithOffsetSteps (m : Finset Int) (maxValue current : Int) : Nat :=
  if current ∈ m then
    if h : current + 1 > maxValue then 1
    else 1 + allocateWithOffsetSteps m maxValue (current + 1)
  else 1
termination_by (maxValue + 1 - current).toNat
decreasing_by omega

/-- Go `AllocateWithOffset`: scan linearly upward from `offset`; on success
mark the found position used and return it unchanged (no `+ minValue`);
the rotating cursor is never touched. -/
def IDGenerator.AllocateWithOffset (g : IDGenerator) (offset : Int) :
    Option Int × IDGenerator :=
  match allocateWithOffsetLoop g.usedMap g.maxValue offset with
  | none => (none, g)
  | some current => (some current, { g with usedMap := insert current g.usedMap })

/-- Go `FreeID`: ids outside `[minValue, maxValue]` are ignored; otherwise
the key `id` itself is deleted from `usedMap` (the Go source deletes `id`,
not `id - minValue`). -/
def IDGenerator.FreeID (g : IDGenerator) (id : Int) : IDGenerator :=
  if id < g.minValue ∨ id > g.maxValue then g
  else { g with usedMap := g.usedMap.erase id }

/-- Iteration count of the scan loop of Go `Allocate`, mirroring
`allocateLoop`. -/
def allocateSteps (m : Finset Int) (valueRange offsetBegin : Int) :
    Nat → Int → Nat
  | 0, _ => 0
  | fuel + 1, off =>
    if off ∈ m then
      let off2 := (off + 1).tmod valueRange
      if off2 = offsetBegin then 1
      else 1 + allocateSteps m valueRange offsetBegin fuel off2
    else 1

/-- Run `n` successive `Allocate` calls, collecting the returned values in
order together with the final state. -/
def allocateRun : IDGenerator → Nat → List (Option Int) × IDGenerator
  | g, 0 => ([], g)
  | g, n + 1 =>
    let p := g.Allocate
    let q := allocateRun p.2 n
    (p.1 :: q.1, q.2)

/-- Invariant from the data-model section of the spec: every member of the
allocated set lies in `[0, size)` where `size = valueRange`. -/
def OffsetsInRange (g : IDGenerator) : Prop :=
  ∀ k ∈ g.usedMap, 0 ≤ k ∧ k < g.valueRange

instance (g : IDGenerator) : Decidable (OffsetsInRange g) := by
  unfold OffsetsInRange
  infer_instance

/-- Facts holding in every state reachable from `NewGenerator minValue
maxValue` with `minValue ≤ maxValue`: `valueRange` is the derived size and
the cursor stays inside `[0, valueRange)`. -/
def StateInv (g : IDGenerator) : Prop :=
  g.valueRange = g.maxValue - g.minValue + 1 ∧ 0 < g.valueRange ∧
    0 ≤ g.offset ∧ g.offset < g.valueRange

instance (g : IDGenerator) : Decidable (StateInv g) := by
  unfold StateInv
  infer_instance

/-! ### Arithmetic helpers -/

/-- Go's `%` agrees with mathematical `emod` on the nonnegative values the
cursor actually takes. -/
lemma tmod_eq_emod_pos {a b : Int} (ha : 0 ≤ a) (hb : 0 < b) :
    a.tmod b = a % b :=
  Int.tmod_eq_emod ha (le_of_lt hb)

/-! ### Basic facts about the `Allocate` scan loop -/

/-- A value returned at the loop's `break` is not a key of the map. -/
lemma allocateLoop_some_not_mem (m : Finset Int) (vR off0 : Int) :
    ∀ (fuel : Nat) (off r s : Int),
      allocateLoop m vR off0 fuel off = (some r, s) → r ∉ m := by
  intro fuel
  induction fuel with
  | zero => intro off r s h; simp [allocateLoop] at h
  | succ f ih =>
    intro off r s h
    by_cases hm : off ∈ m
    · simp only [allocateLoop, hm, if_true] at h
      by_cases hg : (off + 1).tmod vR = off0
      · simp [hg] at h
      · simp only [hg, if_false] at h
        exact ih _ _ _ h
    · simp only [allocateLoop, hm, if_false, Prod.mk.injEq, Option.some.injEq] at h
      exact h.1 ▸ hm

/-- Starting inside `[0, valueRange)`, a value returned at the `break`
also lies in `[0, valueRange)`. -/
lemma allocateLoop_some_range (m : Finset Int) (vR off0 : Int) :
    ∀ (fuel : Nat) (off r s : Int), 0 ≤ off → off < vR →
      allocateLoop m vR off0 fuel off = (some r, s) → 0 ≤ r ∧ r < vR := by
  intro fuel
  induction fuel with
  | zero => intro off r s _ _ h; simp [allocateLoop] at h
  | succ f ih =>
    intro off r s h0 h1 h
    have hvR : 0 < vR := lt_of_le_of_lt h0 h1
    by_cases hm : off ∈ m
    · simp only [allocateLoop, hm, if_true] at h
      by_cases hg : (off + 1).tmod vR = off0
      · simp [hg] at h
      · simp only [hg, if_false] at h
        have he : (off + 1).tmod vR = (off + 1) % vR :=
          tmod_eq_emod_pos (by omega) hvR
        refine ih _ _ _ ?_ ?_ h
        · rw [he]; exact Int.emod_nonneg _ (ne_of_gt hvR)
        · rw [he]; exact Int.emod_lt_of_pos _ hvR
    · simp only [allocateLoop, hm, if_false, Prod.mk.injEq, Option.some.injEq] at h
      omega

/-- Starting inside `[0, valueRange)`, the cursor value the loop leaves
behind also lies in `[0, valueRange)`. -/
lemma allocateLoop_snd_range (m : Finset Int) (vR off0 : Int) :
    ∀ (fuel : Nat) (off : Int), 0 ≤ off → off < vR →
      0 ≤ (allocateLoop m vR off0 fuel off).2 ∧
        (allocateLoop m vR off0 fuel off).2 < vR := by
  intro fuel
  induction fuel with
  | zero => intro off h0 h1; simpa [allocateLoop] using ⟨h0, h1⟩
  | succ f ih =>
    intro off h0 h1
    have hvR : 0 < vR := lt_of_le_of_lt h0 h1
    have he : (off + 1).tmod vR = (off + 1) % vR :=
      tmod_eq_emod_pos (by omega) hvR
    have h2 : 0 ≤ (off + 1).tmod vR := by
      rw [he]; exact Int.emod_nonneg _ (ne_of_gt hvR)
    have h3 : (off + 1).tmod vR < vR := by
      rw [he]; exact Int.emod_lt_of_pos _ hvR
    by_cases hm : off ∈ m
    · by_cases hg : (off + 1).tmod vR = off0
      · simp only [allocateLoop, hm, if_true, hg, if_pos]
        exact ⟨hg ▸ h2, hg ▸ h3⟩
      · simp only [allocateLoop, hm, if_true, hg, if_false]
        exact ih _ h2 h3
    · simp only [allocateLoop, hm, if_false]
      exact ⟨h0, h1⟩

/-- Inside one revolution the wrap-around guard cannot fire: advancing `j+1`
positions from `off0` with `0 < j + 1 < vR` never lands back on `off0`. -/
lemma guard_ne (vR off0 j : Int) (h0 : 0 ≤ off0) (h1 : off0 < vR)
    (hj : 0 ≤ j) (hjv : j + 1 < vR) : (off0 + (j + 1)) % vR ≠ off0 := by
  intro he
  have h2 : (off0 + (j + 1)) % vR = off0 % vR := by
    rw [he, Int.emod_eq_of_lt h0 h1]
  rw [Int.emod_eq_emod_iff_emod_sub_eq_zero] at h2
  have h3 : (j + 1) % vR = 0 := by
    have h4 : off0 + (j + 1) - off0 = j + 1 := by ring
    rwa [h4] at h2
  have h5 : vR ∣ j + 1 := Int.dvd_of_emod_eq_zero h3
  have h6 : vR ≤ j + 1 := Int.le_of_dvd (by omega) h5
  omega

/-- If the `d` positions after the current one are all occupied and the
`(d+1)`-st is free, the scan stops exactly there.  The current position is
written as `(off0 + j) % vR`, `j` positions past the saved start. -/
lemma allocateLoop_reach (m : Finset Int) (vR off0 : Int)
    (h0 : 0 ≤ off0) (h1 : off0 < vR) :
    ∀ (d : Nat) (j : Int) (fuel : Nat), d < fuel → 0 ≤ j →
      j + (d : Int) < vR →
      (∀ i : Int, 0 ≤ i → i < (d : Int) → (off0 + j + i) % vR ∈ m) →
      (off0 + j + (d : Int)) % vR ∉ m →
      allocateLoop m vR off0 fuel ((off0 + j) % vR) =
        (some ((off0 + j + (d : Int)) % vR), (off0 + j + (d : Int)) % vR) := by
  have hvR : 0 < vR := lt_of_le_of_lt h0 h1
  intro d
  induction d with
  | zero =>
    intro j fuel hfuel hj hjd hocc hfree
    obtain ⟨f, rfl⟩ : ∃ f, fuel = f + 1 := ⟨fuel - 1, by omega⟩
    simp only [Nat.cast_zero, add_zero] at hfree ⊢
    simp [allocateLoop, hfree]
  | succ d ih =>
    intro j fuel hfuel hj hjd hocc hfree
    obtain ⟨f, rfl⟩ : ∃ f, fuel = f + 1 := ⟨fuel - 1, by omega⟩
    push_cast at hjd hfree ⊢
    have hp : (off0 + j) % vR ∈ m := by
      have h2 := hocc 0 le_rfl (by push_cast; omega)
      rwa [add_zero] at h2
    have hnn : 0 ≤ (off0 + j) % vR := Int.emod_nonneg _ (ne_of_gt hvR)
    have hstep : ((off0 + j) % vR + 1).tmod vR = (off0 + (j + 1)) % vR := by
      rw [tmod_eq_emod_pos (by omega) hvR, Int.emod_add_emod]
      congr 1
      ring
    have hne : (off0 + (j + 1)) % vR ≠ off0 :=
      guard_ne vR off0 j h0 h1 hj (by omega)
    simp only [allocateLoop, hp, if_true, hstep, hne, if_false]
    have h3 := ih (j + 1) f (by omega) (by omega) (by omega)
      (fun i hi hi2 => by
        have h4 := hocc (i + 1) (by omega) (by push_cast; omega)
        rwa [show off0 + j + (i + 1) = off0 + (j + 1) + i by ring] at h4)
      (by rwa [show off0 + (j + 1) + (d : Int) = off0 + j + ((d : Int) + 1) by ring])
    have h5 : off0 + (j + 1) + (d : Int) = off0 + j + ((d : Int) + 1) := by ring
    rw [h3, h5]

/-- When every offset in `[0, valueRange)` is occupied, the scan wraps all
the way around and stops with the error outcome, the cursor back at the
saved start.  `rem` counts the advances still needed before wrapping. -/
lemma allocateLoop_all (m : Finset Int) (vR off0 : Int)
    (h0 : 0 ≤ off0) (h1 : off0 < vR)
    (hall : ∀ k : Int, 0 ≤ k → k < vR → k ∈ m) :
    ∀ (rem : Nat) (j : Int) (fuel : Nat), rem < fuel → 0 ≤ j →
      j + (rem : Int) + 1 = vR →
      allocateLoop m vR off0 fuel ((off0 + j) % vR) = (none, off0) := by
  have hvR : 0 < vR := lt_of_le_of_lt h0 h1
  intro rem
  induction rem with
  | zero =>
    intro j fuel hfuel hj hjv
    obtain ⟨f, rfl⟩ : ∃ f, fuel = f + 1 := ⟨fuel - 1, by omega⟩
    have hp : (off0 + j) % vR ∈ m :=
      hall _ (Int.emod_nonneg _ (ne_of_gt hvR)) (Int.emod_lt_of_pos _ hvR)
    have hnn : 0 ≤ (off0 + j) % vR := Int.emod_nonneg _ (ne_of_gt hvR)
    have hstep : ((off0 + j) % vR + 1).tmod vR = off0 := by
      rw [tmod_eq_emod_pos (by omega) hvR, Int.emod_add_emod,
        show off0 + j + 1 = off0 + vR by omega, Int.add_emod_self,
        Int.emod_eq_of_lt h0 h1]
    simp [allocateLoop, hp, hstep]
  | succ rem ih =>
    intro j fuel hfuel hj hjv
    obtain ⟨f, rfl⟩ : ∃ f, fuel = f + 1 := ⟨fuel - 1, by omega⟩
    have hp : (off0 + j) % vR ∈ m :=
      hall _ (Int.emod_nonneg _ (ne_of_gt hvR)) (Int.emod_lt_of_pos _ hvR)
    have hnn : 0 ≤ (off0 + j) % vR := Int.emod_nonneg _ (ne_of_gt hvR)
    have hstep : ((off0 + j) % vR + 1).tmod vR = (off0 + (j + 1)) % vR := by
      rw [tmod_eq_emod_pos (by omega) hvR, Int.emod_add_emod]
      congr 1
      ring
    have hne : (off0 + (j + 1)) % vR ≠ off0 :=
      guard_ne vR off0 j h0 h1 hj (by omega)
    simp only [allocateLoop, hp, if_true, hstep, hne, if_false]
    exact ih (j + 1) f (by omega) (by omega) (by omega)

/-- Packaging of the first free offset reached from `off0`, for a map in
which some offset of `[0, valueRange)` is free: a scan distance `d` whose
earlier positions are all occupied and whose own position is free. -/
lemma exists_first_free (m : Finset Int) (vR off0 : Int)
    (h0 : 0 ≤ off0) (h1 : off0 < vR)
    (hex : ∃ k : Int, 0 ≤ k ∧ k < vR ∧ k ∉ m) :
    ∃ d : Nat, (d : Int) < vR ∧
      (∀ i : Int, 0 ≤ i → i < (d : Int) → (off0 + i) % vR ∈ m) ∧
      (off0 + (d : Int)) % vR ∉ m := by
  have hvR : 0 < vR := lt_of_le_of_lt h0 h1
  obtain ⟨k, hk0, hk1, hkm⟩ := hex
  have hI : ∃ i : Nat, (off0 + (i : Int)) % vR ∉ m := by
    refine ⟨((k - off0) % vR).toNat, ?_⟩
    have h2 : 0 ≤ (k - off0) % vR := Int.emod_nonneg _ (ne_of_gt hvR)
    rw [Int.toNat_of_nonneg h2, Int.add_emod_emod,
      show off0 + (k - off0) = k by ring, Int.emod_eq_of_lt hk0 hk1]
    exact hkm
  classical
  refine ⟨Nat.find hI, ?_, ?_, Nat.find_spec hI⟩
  · by_contra hge
    push_neg at hge
    have h2 : ((k - off0) % vR).toNat < Nat.find hI := by
      have h3 : (k - off0) % vR < vR := Int.emod_lt_of_pos _ hvR
      have h4 : 0 ≤ (k - off0) % vR := Int.emod_nonneg _ (ne_of_gt hvR)
      omega
    have h5 := Nat.find_min hI h2
    rw [not_not] at h5
    have h6 : 0 ≤ (k - off0) % vR := Int.emod_nonneg _ (ne_of_gt hvR)
    rw [Int.toNat_of_nonneg h6, Int.add_emod_emod,
      show off0 + (k - off0) = k % vR by rw [Int.emod_eq_of_lt hk0 hk1]; ring,
      Int.emod_emod_of_dvd _ dvd_rfl, Int.emod_eq_of_lt hk0 hk1] at h5
    exact hkm h5
  · intro i hi0 hi1
    have h2 : i.toNat < Nat.find hI := by omega
    have h3 := Nat.find_min hI h2
    rw [not_not] at h3
    rwa [Int.toNat_of_nonneg hi0] at h3

/-! ### Facts about the `AllocateWithOffset` scan loop -/

/-- Exact characterization of the error outcome of the linear scan: it
fails iff the starting value is occupied and so is every position from
there up through `maxValue`. -/
lemma allocateWithOffsetLoop_none_iff (m : Finset Int) (maxValue : Int) (current : Int) :
    allocateWithOffsetLoop m maxValue current = none ↔
      (current ∈ m ∧ ∀ p : Int, current ≤ p → p ≤ maxValue → p ∈ m) := by
  induction current using allocateWithOffsetLoop.induct m maxValue with
  | case1 current hm hgt =>
    rw [allocateWithOffsetLoop, if_pos hm, dif_pos hgt]
    constructor
    · intro _
      refine ⟨hm, fun p hp1 hp2 => ?_⟩
      have h2 : p = current := by omega
      rwa [h2]
    · intro _; rfl
  | case2 current hm hgt ih =>
    rw [allocateWithOffsetLoop, if_pos hm, dif_neg hgt]
    rw [ih]
    constructor
    · rintro ⟨h1, h2⟩
      refine ⟨hm, fun p hp1 hp2 => ?_⟩
      rcases eq_or_lt_of_le hp1 with h | h
      · rwa [← h]
      · exact h2 p (by omega) hp2
    · rintro ⟨h1, h2⟩
      exact ⟨h2 _ (by omega) (by omega), fun p hp1 hp2 => h2 p (by omega) hp2⟩
  | case3 current hm =>
    rw [allocateWithOffsetLoop, if_neg hm]
    simp [hm]

/-- A free starting value is returned immediately, whatever it is. -/
lemma allocateWithOffsetLoop_not_mem (m : Finset Int) (maxValue current : Int)
    (h : current ∉ m) : allocateWithOffsetLoop m maxValue current = some current := by
  rw [allocateWithOffsetLoop, if_neg h]

/-- A value returned by the linear scan is not a key of the map. -/
lemma allocateWithOffsetLoop_some_not_mem (m : Finset Int) (maxValue : Int) (current : Int) :
    ∀ r : Int, allocateWithOffsetLoop m maxValue current = some r → r ∉ m := by
  induction current using allocateWithOffsetLoop.induct m maxValue with
  | case1 current hm hgt =>
    intro r h
    rw [allocateWithOffsetLoop, if_pos hm, dif_pos hgt] at h
    exact absurd h (by simp)
  | case2 current hm hgt ih =>
    intro r h
    rw [allocateWithOffsetLoop, if_pos hm, dif_neg hgt] at h
    exact ih r h
  | case3 current hm =>
    intro r h
    rw [allocateWithOffsetLoop, if_neg hm] at h
    cases h
    exact hm

/-- The linear scan never runs more than `maxValue + 1 - current` loop
iterations, plus one final probe. -/
lemma allocateWithOffsetSteps_le (m : Finset Int) (maxValue : Int) (current : Int) :
    allocateWithOffsetSteps m maxValue current ≤ (maxValue + 1 - current).toNat + 1 := by
  induction current using allocateWithOffsetSteps.induct m maxValue with
  | case1 current hm hgt =>
    rw [allocateWithOffsetSteps, if_pos hm, dif_pos hgt]
    omega
  | case2 current hm hgt ih =>
    rw [allocateWithOffsetSteps, if_pos hm, dif_neg hgt]
    omega
  | case3 current hm =>
    rw [allocateWithOffsetSteps, if_neg hm]
    omega

/-- The `Allocate` scan runs at most `fuel` loop iterations. -/
lemma allocateSteps_le_fuel (m : Finset Int) (vR off0 : Int) :
    ∀ (fuel : Nat) (off : Int), allocateSteps m vR off0 fuel off ≤ fuel := by
  intro fuel
  induction fuel with
  | zero => intro off; simp [allocateSteps]
  | succ f ih =>
    intro off
    by_cases hm : off ∈ m
    · by_cases hg : (off + 1).tmod vR = off0
      · simp only [allocateSteps, hm, if_true, hg, if_pos]
        omega
      · simp only [allocateSteps, hm, if_true, hg, if_false]
        have := ih ((off + 1).tmod vR)
        omega
    · simp only [allocateSteps, hm, if_false]
      omega

/-! ### Case analyses of the two allocation operations -/

/-- `Allocate` either propagates the loop's error, leaving the map alone
and storing the loop's final cursor, or marks the found offset, returns
`offset + minValue` and advances the cursor one more step. -/
lemma Allocate_cases (g : IDGenerator) :
    (∃ s, allocateLoop g.usedMap g.valueRange g.offset g.valueRange.toNat g.offset
          = (none, s) ∧
        g.Allocate = (none, { g with offset := s })) ∨
    (∃ off s,
        allocateLoop g.usedMap g.valueRange g.offset g.valueRange.toNat g.offset
          = (some off, s) ∧
        g.Allocate = (some (off + g.minValue),
          { g with usedMap := insert off g.usedMap,
                   offset := (off + 1).tmod g.valueRange })) := by
  rcases h : allocateLoop g.usedMap g.valueRange g.offset g.valueRange.toNat g.offset
    with ⟨r, s⟩
  cases r with
  | none =>
    left
    refine ⟨s, rfl, ?_⟩
    unfold IDGenerator.Allocate
    rw [h]
  | some off =>
    right
    refine ⟨off, s, rfl, ?_⟩
    unfold IDGenerator.Allocate
    rw [h]
    simp [IDGenerator.updateOffset]

/-- `AllocateWithOffset` either propagates the loop's error with the state
untouched, or marks the found position and returns it unchanged. -/
lemma AllocateWithOffset_cases (g : IDGenerator) (offset : Int) :
    (allocateWithOffsetLoop g.usedMap g.maxValue offset = none ∧
        g.AllocateWithOffset offset = (none, g)) ∨
    (∃ c, allocateWithOffsetLoop g.usedMap g.maxValue offset = some c ∧
        g.AllocateWithOffset offset
          = (some c, { g with usedMap := insert c g.usedMap })) := by
  rcases h : allocateWithOffsetLoop g.usedMap g.maxValue offset with _ | c
  · left
    refine ⟨rfl, ?_⟩
    unfold IDGenerator.AllocateWithOffset
    rw [h]
  · right
    refine ⟨c, rfl, ?_⟩
    unfold IDGenerator.AllocateWithOffset
    rw [h]

/-! ### Reachable-state invariant -/

lemma StateInv_NewGenerator (minValue maxValue : Int) (h : minValue ≤ maxValue) :
    StateInv (NewGenerator minValue maxValue) := by
  refine ⟨rfl, ?_, le_rfl, ?_⟩ <;> simp [NewGenerator, IDGenerator.init] <;> omega

lemma StateInv_Allocate (g : IDGenerator) (h : StateInv g) :
    StateInv g.Allocate.2 := by
  obtain ⟨h1, h2, h3, h4⟩ := h
  rcases Allocate_cases g with ⟨s, hl, he⟩ | ⟨off, s, hl, he⟩
  · have hs := allocateLoop_snd_range g.usedMap g.valueRange g.offset
      g.valueRange.toNat g.offset h3 h4
    rw [hl] at hs
    rw [he]
    exact ⟨h1, h2, hs.1, hs.2⟩
  · have hr := allocateLoop_some_range g.usedMap g.valueRange g.offset
      g.valueRange.toNat g.offset off s h3 h4 hl
    have he2 : (off + 1).tmod g.valueRange = (off + 1) % g.valueRange :=
      tmod_eq_emod_pos (by omega) h2
    rw [he]
    refine ⟨h1, h2, ?_, ?_⟩
    · rw [he2]; exact Int.emod_nonneg _ (ne_of_gt h2)
    · rw [he2]; exact Int.emod_lt_of_pos _ h2

lemma StateInv_AllocateWithOffset (g : IDGenerator) (offset : Int)
    (h : StateInv g) : StateInv (g.AllocateWithOffset offset).2 := by
  rcases AllocateWithOffset_cases g offset with ⟨hl, he⟩ | ⟨c, hl, he⟩ <;>
    rw [he] <;> exact h

lemma StateInv_FreeID (g : IDGenerator) (id : Int) (h : StateInv g) :
    StateInv (g.FreeID id) := by
  unfold IDGenerator.FreeID
  by_cases hc : id < g.minValue ∨ id > g.maxValue
  · rwa [if_pos hc]
  · rw [if_neg hc]; exact h

/-! ### Top-level characterizations of `Allocate` -/

/-- Under the cursor invariant, `Allocate` reports exhaustion exactly when
every offset of `[0, valueRange)` is a key of the map. -/
lemma Allocate_none_iff (g : IDGenerator) (h2 : 0 < g.valueRange)
    (h3 : 0 ≤ g.offset) (h4 : g.offset < g.valueRange) :
    g.Allocate.1 = none ↔
      ∀ k : Int, 0 ≤ k → k < g.valueRange → k ∈ g.usedMap := by
  have hstart : (g.offset + 0) % g.valueRange = g.offset := by
    rw [add_zero, Int.emod_eq_of_lt h3 h4]
  constructor
  · intro hn
    by_contra hnot
    push_neg at hnot
    obtain ⟨k, hk0, hk1, hkm⟩ := hnot
    obtain ⟨d, hd1, hd2, hd3⟩ := exists_first_free g.usedMap g.valueRange g.offset
      h3 h4 ⟨k, hk0, hk1, hkm⟩
    have hreach := allocateLoop_reach g.usedMap g.valueRange g.offset h3 h4 d 0
      g.valueRange.toNat (by omega) le_rfl (by omega)
      (fun i hi hi2 => by simpa using hd2 i hi hi2)
      (by simpa using hd3)
    rw [hstart] at hreach
    rcases Allocate_cases g with ⟨s, hl, he⟩ | ⟨off, s, hl, he⟩
    · rw [hl] at hreach
      simp at hreach
    · rw [he] at hn
      simp at hn
  · intro hall
    have hwrap := allocateLoop_all g.usedMap g.valueRange g.offset h3 h4 hall
      (g.valueRange.toNat - 1) 0 g.valueRange.toNat (by omega) le_rfl (by omega)
    rw [hstart] at hwrap
    rcases Allocate_cases g with ⟨s, hl, he⟩ | ⟨off, s, hl, he⟩
    · rw [he]
    · rw [hl] at hwrap
      simp at hwrap

/-- Under the cursor invariant, a failing `Allocate` leaves the state
exactly as it was: the loop's wrap-around guard means the error is
reported precisely when the cursor has returned to its starting value. -/
lemma Allocate_none_state (g : IDGenerator) (h2 : 0 < g.valueRange)
    (h3 : 0 ≤ g.offset) (h4 : g.offset < g.valueRange)
    (hn : g.Allocate.1 = none) : g.Allocate.2 = g := by
  have hall : ∀ k : Int, 0 ≤ k → k < g.valueRange → k ∈ g.usedMap :=
    (Allocate_none_iff g h2 h3 h4).mp hn
  have hstart : (g.offset + 0) % g.valueRange = g.offset := by
    rw [add_zero, Int.emod_eq_of_lt h3 h4]
  have hwrap := allocateLoop_all g.usedMap g.valueRange g.offset h3 h4 hall
    (g.valueRange.toNat - 1) 0 g.valueRange.toNat (by omega) le_rfl (by omega)
  rw [hstart] at hwrap
  rcases Allocate_cases g with ⟨s, hl, he⟩ | ⟨off, s, hl, he⟩
  · rw [he]
    have hs : s = g.offset := by
      have h5 := hl.symm.trans hwrap
      injection h5 with h6 h7
    rw [hs]
  · rw [he] at hn
    simp at hn

/-- A successful `Allocate` hands out `off + minValue` for an offset `off`
that was free before the call, lies in `[0, valueRange)` under the cursor
invariant, and is inserted into the map afterwards. -/
lemma Allocate_some_spec (g : IDGenerator) (id : Int) (_h2 : 0 < g.valueRange)
    (h3 : 0 ≤ g.offset) (h4 : g.offset < g.valueRange)
    (h : g.Allocate.1 = some id) :
    (id - g.minValue) ∉ g.usedMap ∧ 0 ≤ id - g.minValue ∧
      id - g.minValue < g.valueRange ∧
      g.Allocate.2.usedMap = insert (id - g.minValue) g.usedMap := by
  rcases Allocate_cases g with ⟨s, hl, he⟩ | ⟨off, s, hl, he⟩
  · rw [he] at h; simp at h
  · rw [he] at h
    simp only [Option.some.injEq] at h
    have hfresh := allocateLoop_some_not_mem g.usedMap g.valueRange g.offset
      g.valueRange.toNat g.offset off s hl
    have hrange := allocateLoop_some_range g.usedMap g.valueRange g.offset
      g.valueRange.toNat g.offset off s h3 h4 hl
    have hoff : id - g.minValue = off := by omega
    rw [he, hoff]
    exact ⟨hfresh, by omega, by omega, rfl⟩

/-- `Allocate` never changes `minValue`, `maxValue` or `valueRange`, and
its final map contains the initial one. -/
lemma Allocate_preserves_fields (g : IDGenerator) :
    g.Allocate.2.minValue = g.minValue ∧ g.Allocate.2.maxValue = g.maxValue ∧
      g.Allocate.2.valueRange = g.valueRange ∧
      g.usedMap ⊆ g.Allocate.2.usedMap := by
  rcases Allocate_cases g with ⟨s, hl, he⟩ | ⟨off, s, hl, he⟩ <;> rw [he]
  · exact ⟨rfl, rfl, rfl, subset_rfl⟩
  · exact ⟨rfl, rfl, rfl, Finset.subset_insert _ _⟩

/-- Fuel past `valueRange.toNat` is irrelevant: the `Allocate` scan has
already reached its answer within `valueRange` iterations whenever the
cursor invariant holds. -/
lemma allocateLoop_stable (m : Finset Int) (vR off0 : Int)
    (h3 : 0 ≤ off0) (h4 : off0 < vR) (fuel : Nat) (hf : vR.toNat ≤ fuel) :
    allocateLoop m vR off0 fuel off0 = allocateLoop m vR off0 vR.toNat off0 := by
  have hvR : 0 < vR := lt_of_le_of_lt h3 h4
  have hstart : (off0 + 0) % vR = off0 := by
    rw [add_zero, Int.emod_eq_of_lt h3 h4]
  by_cases hall : ∀ k : Int, 0 ≤ k → k < vR → k ∈ m
  · have ha := allocateLoop_all m vR off0 h3 h4 hall (vR.toNat - 1) 0 fuel
      (by omega) le_rfl (by omega)
    have hb := allocateLoop_all m vR off0 h3 h4 hall (vR.toNat - 1) 0 vR.toNat
      (by omega) le_rfl (by omega)
    rw [hstart] at ha hb
    rw [ha, hb]
  · push_neg at hall
    obtain ⟨k, hk0, hk1, hkm⟩ := hall
    obtain ⟨d, hd1, hd2, hd3⟩ := exists_first_free m vR off0 h3 h4 ⟨k, hk0, hk1, hkm⟩
    have ha := allocateLoop_reach m vR off0 h3 h4 d 0 fuel (by omega) le_rfl
      (by omega) (fun i hi hi2 => by simpa using hd2 i hi hi2) (by simpa using hd3)
    have hb := allocateLoop_reach m vR off0 h3 h4 d 0 vR.toNat (by omega) le_rfl
      (by omega) (fun i hi hi2 => by simpa using hd2 i hi hi2) (by simpa using hd3)
    rw [hstart] at ha hb
    rw [ha, hb]

/-! ### Facts about sequences of `Allocate` calls -/

lemma allocateRun_succ (g : IDGenerator) (n : Nat) :
    allocateRun g (n + 1) =
      (g.Allocate.1 :: (allocateRun g.Allocate.2 n).1,
        (allocateRun g.Allocate.2 n).2) := rfl

/-- Each id handed out somewhere during a sequence of `Allocate` calls was
free (as an offset) in the starting state of the sequence. -/
lemma allocateRun_some_not_mem (n : Nat) :
    ∀ (g : IDGenerator) (x : Int), StateInv g →
      some x ∈ (allocateRun g n).1 → (x - g.minValue) ∉ g.usedMap := by
  induction n with
  | zero => intro g x _ h; simp [allocateRun] at h
  | succ n ih =>
    intro g x hinv h
    rw [allocateRun_succ] at h
    rcases List.mem_cons.mp h with h | h
    · exact (Allocate_some_spec g x hinv.2.1 hinv.2.2.1 hinv.2.2.2 h.symm).1
    · have h5 := ih g.Allocate.2 x (StateInv_Allocate g hinv) h
      obtain ⟨hmin, hmax, hvr, hsub⟩ := Allocate_preserves_fields g
      rw [hmin] at h5
      exact fun hx => h5 (hsub hx)

/-- Helper: `filterMap` by the identity drops a `none` head. -/
lemma filterMap_id_cons_none (l : List (Option Int)) :
    List.filterMap (fun o => o) (none :: l) = List.filterMap (fun o => o) l := rfl

/-- Helper: `filterMap` by the identity keeps a `some` head. -/
lemma filterMap_id_cons_some (a : Int) (l : List (Option Int)) :
    List.filterMap (fun o => o) (some a :: l) = a :: List.filterMap (fun o => o) l := rfl

/-- Distinctness and range of the ids handed out by an uninterrupted
sequence of `Allocate` calls: they are pairwise different and each lies in
`[minValue, maxValue]`. -/
lemma allocateRun_distinct (n : Nat) :
    ∀ g : IDGenerator, StateInv g →
      ((allocateRun g n).1.filterMap (fun o => o)).Pairwise (· ≠ ·) ∧
        ∀ x ∈ (allocateRun g n).1.filterMap (fun o => o),
          g.minValue ≤ x ∧ x ≤ g.maxValue := by
  induction n with
  | zero => intro g _; simp [allocateRun]
  | succ n ih =>
    intro g hinv
    obtain ⟨hmin, hmax, hvr, hsub⟩ := Allocate_preserves_fields g
    have hinv2 := StateInv_Allocate g hinv
    obtain ⟨ihp, ihb⟩ := ih g.Allocate.2 hinv2
    rw [allocateRun_succ]
    dsimp only
    cases hr : g.Allocate.1 with
    | none =>
      rw [filterMap_id_cons_none]
      refine ⟨ihp, fun x hx => ?_⟩
      have h5 := ihb x hx
      rw [hmin, hmax] at h5
      exact h5
    | some id =>
      have hspec := Allocate_some_spec g id hinv.2.1 hinv.2.2.1 hinv.2.2.2 hr
      have hidmem : (id - g.minValue) ∈ g.Allocate.2.usedMap := by
        rw [hspec.2.2.2]
        exact Finset.mem_insert_self _ _
      rw [filterMap_id_cons_some]
      constructor
      · rw [List.pairwise_cons]
        refine ⟨fun b hb => ?_, ihp⟩
        obtain ⟨a, ha, ha2⟩ := List.mem_filterMap.mp hb
        intro he
        have h5 := allocateRun_some_not_mem n g.Allocate.2 b hinv2 (ha2 ▸ ha)
        rw [hmin, ← he] at h5
        exact h5 hidmem
      · intro x hx
        rcases List.mem_cons.mp hx with h | h
        · have h6 := hinv.1
          have h7 := hspec.2.1
          have h8 := hspec.2.2.1
          omega
        · have h5 := ihb x h
          rw [hmin, hmax] at h5
          exact h5

/-- `AllocateWithOffset` on a value that is not currently a key succeeds
at once, returning that value and inserting it. -/
lemma AllocateWithOffset_not_mem (g : IDGenerator) (offset : Int)
    (h : offset ∉ g.usedMap) :
    g.AllocateWithOffset offset
      = (some offset, { g with usedMap := insert offset g.usedMap }) := by
  unfold IDGenerator.AllocateWithOffset
  rw [allocateWithOffsetLoop_not_mem _ _ _ h]

/-- `AllocateWithOffset` reports the error exactly when its scan loop
does. -/
lemma AllocateWithOffset_fst_none_iff (g : IDGenerator) (offset : Int) :
    (g.AllocateWithOffset offset).1 = none ↔
      allocateWithOffsetLoop g.usedMap g.maxValue offset = none := by
  rcases AllocateWithOffset_cases g offset with ⟨hl, he⟩ | ⟨c, hl, he⟩
  · rw [he, hl]
  · rw [he, hl]

/-! ### Claim theorems -/

/-- C1: evaluation of the code at the claim's own scenario, exhibiting the
divergence.  With `min = max = 1`, `Allocate` returns `1` and a second
`Allocate` fails, as the claim says; but after `FreeID 1` the map still
contains the allocated offset `0` — `FreeID` deletes the key `id`, not
`id - min` — so the subsequent `Allocate` fails instead of returning `1`. -/
theorem claim_C1_free_key_mismatch :
    (NewGenerator 1 1).Allocate.1 = some 1 ∧
      (NewGenerator 1 1).Allocate.2.Allocate.1 = none ∧
      ((NewGenerator 1 1).Allocate.2.FreeID 1).usedMap = {0} ∧
      ((NewGenerator 1 1).Allocate.2.FreeID 1).Allocate.1 = none := by
  decide

/-- C2: evaluation of the code at the claim's scenario.  With
`min = 1, max = 5`, the five `Allocate` calls return `1..5`; `FreeID 3`
deletes the key `3` — which is the offset of id `4`, not of id `3` — so
the next `Allocate` returns `4`, not `3` as the claim states. -/
theorem claim_C2_reuse_returns_four :
    (allocateRun (NewGenerator 1 5) 5).1
        = [some 1, some 2, some 3, some 4, some 5] ∧
      ((allocateRun (NewGenerator 1 5) 5).2.FreeID 3).Allocate.1 = some 4 := by
  decide

/-- C9: `AllocateWithOffset` never reads or writes the rotating cursor,
nor any field other than `usedMap`: afterwards `offset`, `minValue`,
`maxValue` and `valueRange` all hold exactly their prior values, whether
the call succeeds or fails. -/
theorem claim_C9_cursor_untouched (g : IDGenerator) (offset : Int) :
    (g.AllocateWithOffset offset).2.offset = g.offset ∧
      (g.AllocateWithOffset offset).2.minValue = g.minValue ∧
      (g.AllocateWithOffset offset).2.maxValue = g.maxValue ∧
      (g.AllocateWithOffset offset).2.valueRange = g.valueRange := by
  rcases AllocateWithOffset_cases g offset with ⟨hl, he⟩ | ⟨c, hl, he⟩ <;>
    rw [he] <;> exact ⟨rfl, rfl, rfl, rfl⟩

/-- C10: `AllocateWithOffset` performs no bounds check of its argument:
whenever `offset` is not currently a key of the map — no matter whether it
is below `minValue` or above `maxValue` — the call succeeds and returns
`offset` itself, inserting it into the map. -/
theorem claim_C10_no_bounds_check (g : IDGenerator) (offset : Int)
    (h : offset ∉ g.usedMap) :
    g.AllocateWithOffset offset
      = (some offset, { g with usedMap := insert offset g.usedMap }) :=
  AllocateWithOffset_not_mem g offset h

/-- C10 witness: on a fresh allocator over `[1, 10]`, offsets `0` (below
`minValue`) and `11` (above `maxValue`) are both handed out unchanged. -/
theorem claim_C10_witness :
    ((NewGenerator 1 10).AllocateWithOffset 11).1 = some 11 ∧
      ((NewGenerator 1 10).AllocateWithOffset 0).1 = some 0 := by
  constructor
  · rw [claim_C10_no_bounds_check (NewGenerator 1 10) 11 (by decide)]
  · rw [claim_C10_no_bounds_check (NewGenerator 1 10) 0 (by decide)]

/-- C3 counterexample: the invariant "every member of `allocated` lies in
`[0, size)`" is not preserved by `AllocateWithOffset`.  With
`min = max = 1` (so `size = 1`), `AllocateWithOffset 1` inserts the
member `1`, and `1` does not lie in `[0, 1)`. -/
theorem claim_C3_counterexample :
    (1 : Int) ∈ ((NewGenerator 1 1).AllocateWithOffset 1).2.usedMap ∧
      ¬ ((1 : Int) < ((NewGenerator 1 1).AllocateWithOffset 1).2.valueRange) := by
  rw [AllocateWithOffset_not_mem (NewGenerator 1 1) 1 (by decide)]
  exact ⟨by decide, by decide⟩

/-- C3 amended: the invariant `OffsetsInRange` — every member of the
allocated set lies in `[0, size)` — is established by `Construct` and
preserved by `Allocate` (under the cursor invariant) and by `Free`;
`AllocateWithOffset` does not preserve it. -/
theorem claim_C3_invariant_amended :
    (∀ minValue maxValue : Int, OffsetsInRange (NewGenerator minValue maxValue)) ∧
      (∀ g : IDGenerator, 0 < g.valueRange → 0 ≤ g.offset →
        g.offset < g.valueRange → OffsetsInRange g →
        OffsetsInRange g.Allocate.2) ∧
      (∀ (g : IDGenerator) (id : Int), OffsetsInRange g →
        OffsetsInRange (g.FreeID id)) := by
  refine ⟨?_, ?_, ?_⟩
  · intro minValue maxValue k hk
    simp [NewGenerator, IDGenerator.init] at hk
  · intro g h2 h3 h4 hinv
    rcases Allocate_cases g with ⟨s, hl, he⟩ | ⟨off, s, hl, he⟩
    · rw [he]
      intro k hk
      exact hinv k hk
    · have hrange := allocateLoop_some_range g.usedMap g.valueRange g.offset
        g.valueRange.toNat g.offset off s h3 h4 hl
      rw [he]
      intro k hk
      rcases Finset.mem_insert.mp hk with h | h
      · rw [h]; exact hrange
      · exact hinv k h
  · intro g id hinv
    unfold IDGenerator.FreeID
    by_cases hc : id < g.minValue ∨ id > g.maxValue
    · rw [if_pos hc]; exact hinv
    · rw [if_neg hc]
      intro k hk
      exact hinv k (Finset.mem_of_mem_erase hk)

/-- C3 witness: the `Allocate` part of the amended claim applied to a
fresh allocator over `[1, 3]`. -/
theorem claim_C3_witness : OffsetsInRange (NewGenerator 1 3).Allocate.2 :=
  claim_C3_invariant_amended.2.1 (NewGenerator 1 3)
    (by decide) (by decide) (by decide) (by decide)

/-- C4 counterexample: an id returned by `Allocate` can equal a
currently-allocated id obtained from `AllocateWithOffset`, because the two
entry points key the shared map differently.  With `min = 1, max = 5`,
`AllocateWithOffset 2` returns id `2`; without any free, the second
subsequent `Allocate` also returns id `2`. -/
theorem claim_C4_counterexample :
    ((NewGenerator 1 5).AllocateWithOffset 2).1 = some 2 ∧
      ((NewGenerator 1 5).AllocateWithOffset 2).2.Allocate.2.Allocate.1 = some 2 := by
  rw [AllocateWithOffset_not_mem (NewGenerator 1 5) 2 (by decide)]
  exact ⟨rfl, by decide⟩

/-- C4 amended: for every sequence of `Allocate` calls with no interleaved
`Free` and no interleaved `AllocateWithOffset`, the returned ids are
pairwise distinct and all lie in `[minValue, maxValue]`. -/
theorem claim_C4_allocate_unique (g : IDGenerator) (n : Nat) (h : StateInv g) :
    ((allocateRun g n).1.filterMap (fun o => o)).Pairwise (· ≠ ·) ∧
      ∀ x ∈ (allocateRun g n).1.filterMap (fun o => o),
        g.minValue ≤ x ∧ x ≤ g.maxValue :=
  allocateRun_distinct n g h

/-- C4 witness: four consecutive `Allocate` calls on a fresh allocator
over `[1, 3]` return pairwise distinct in-range ids. -/
theorem claim_C4_witness :
    ((allocateRun (NewGenerator 1 3) 4).1.filterMap (fun o => o)).Pairwise (· ≠ ·) ∧
      ∀ x ∈ (allocateRun (NewGenerator 1 3) 4).1.filterMap (fun o => o),
        (NewGenerator 1 3).minValue ≤ x ∧ x ≤ (NewGenerator 1 3).maxValue :=
  claim_C4_allocate_unique (NewGenerator 1 3) 4 (by decide)

/-- C5 counterexample: an offset above `maxValue` whose value is free does
not make `AllocateWithOffset` fail — it succeeds and returns the offset.
With `max = 10` and an empty map, every position from `11` through `10` is
(vacuously) occupied, yet `AllocateWithOffset 11` returns `some 11`. -/
theorem claim_C5_counterexample :
    (11 : Int) > (NewGenerator 1 10).maxValue ∧
      (∀ p : Int, 11 ≤ p → p ≤ (NewGenerator 1 10).maxValue →
        p ∈ (NewGenerator 1 10).usedMap) ∧
      ((NewGenerator 1 10).AllocateWithOffset 11).1 = some 11 := by
  refine ⟨by decide, fun p h1 h2 => ?_, ?_⟩
  · exact absurd (le_trans h1 h2) (by decide)
  · rw [AllocateWithOffset_not_mem (NewGenerator 1 10) 11 (by decide)]

/-- C5 amended: `AllocateWithOffset offset` fails with `ExhaustedRange`
exactly when `offset` itself is occupied and every position from `offset`
up through `maxValue` is occupied (for `offset ≤ maxValue` this is just
and only "every position in `[offset, maxValue]` is occupied"; for a free
`offset > maxValue` the call instead succeeds).  The claim's concrete
boundary scenario holds: with `max = 10` and `10` free,
`AllocateWithOffset 10` returns `10`, and an immediate second call fails. -/
theorem claim_C5_exhaustion_amended :
    (∀ (g : IDGenerator) (offset : Int),
        (g.AllocateWithOffset offset).1 = none ↔
          (offset ∈ g.usedMap ∧
            ∀ p : Int, offset ≤ p → p ≤ g.maxValue → p ∈ g.usedMap)) ∧
      ((NewGenerator 1 10).AllocateWithOffset 10).1 = some 10 ∧
      (((NewGenerator 1 10).AllocateWithOffset 10).2.AllocateWithOffset 10).1 = none := by
  refine ⟨fun g offset => ?_, ?_, ?_⟩
  · rw [AllocateWithOffset_fst_none_iff]
    exact allocateWithOffsetLoop_none_iff g.usedMap g.maxValue offset
  · rw [AllocateWithOffset_not_mem (NewGenerator 1 10) 10 (by decide)]
  · rw [AllocateWithOffset_not_mem (NewGenerator 1 10) 10 (by decide),
      AllocateWithOffset_fst_none_iff, allocateWithOffsetLoop,
      if_pos (by decide), dif_pos (by decide)]

/-- C6: `Allocate` fails with `ExhaustedRange` exactly when every offset
in `[0, size)` is occupied (under the cursor invariant, which holds in
every reachable state); and on a fresh allocator over `[1, 3]` four
consecutive `Allocate` calls return `1`, `2`, `3` — three distinct values
of `{1, 2, 3}` — and then fail. -/
theorem claim_C6_exhaustion :
    (∀ g : IDGenerator, 0 < g.valueRange → 0 ≤ g.offset →
        g.offset < g.valueRange →
        (g.Allocate.1 = none ↔
          ∀ k : Int, 0 ≤ k → k < g.valueRange → k ∈ g.usedMap)) ∧
      (allocateRun (NewGenerator 1 3) 4).1 = [some 1, some 2, some 3, none] :=
  ⟨Allocate_none_iff, by decide⟩

/-- C6 witness: the exhaustion characterization applied to a fresh
allocator over `[1, 3]`. -/
theorem claim_C6_witness :
    (NewGenerator 1 3).Allocate.1 = none ↔
      ∀ k : Int, 0 ≤ k → k < (NewGenerator 1 3).valueRange →
        k ∈ (NewGenerator 1 3).usedMap :=
  claim_C6_exhaustion.1 (NewGenerator 1 3) (by decide) (by decide) (by decide)

/-- C7: a failing allocation leaves the allocator's state unchanged: when
`Allocate` reports exhaustion (under the cursor invariant) the map is
untouched and the cursor has wrapped back to its starting value, and when
`AllocateWithOffset` reports exhaustion the whole state is returned
as it was. -/
theorem claim_C7_failure_preserves_state (g : IDGenerator) :
    (0 < g.valueRange → 0 ≤ g.offset → g.offset < g.valueRange →
        g.Allocate.1 = none → g.Allocate.2 = g) ∧
      (∀ offset : Int, (g.AllocateWithOffset offset).1 = none →
        (g.AllocateWithOffset offset).2 = g) := by
  refine ⟨Allocate_none_state g, fun offset hn => ?_⟩
  rcases AllocateWithOffset_cases g offset with ⟨hl, he⟩ | ⟨c, hl, he⟩
  · rw [he]
  · rw [he] at hn
    simp at hn

/-- C7 witness: a failing `Allocate` on the full allocator over `[1, 1]`
and a failing `AllocateWithOffset` on the full allocator over `[0, 0]`
both leave the state unchanged. -/
theorem claim_C7_witness :
    (NewGenerator 1 1).Allocate.2.Allocate.2 = (NewGenerator 1 1).Allocate.2 ∧
      ((NewGenerator 0 0).Allocate.2.AllocateWithOffset 0).2
        = (NewGenerator 0 0).Allocate.2 := by
  constructor
  · exact (claim_C7_failure_preserves_state (NewGenerator 1 1).Allocate.2).1
      (by decide) (by decide) (by decide) (by decide)
  · refine (claim_C7_failure_preserves_state (NewGenerator 0 0).Allocate.2).2 0 ?_
    have h : (NewGenerator 0 0).Allocate.2 = (⟨0, 0, 1, 0, {0}⟩ : IDGenerator) := by
      decide
    rw [h, AllocateWithOffset_fst_none_iff, allocateWithOffsetLoop,
      if_pos (by decide), dif_pos (by decide)]

/-- C8 counterexample: the `AllocateWithOffset` scan loop can execute more
than `size` iterations.  In the reachable state over `[2, 3]` (so
`size = 2`) whose map is `{2, 1, 0}` — reached by three
`AllocateWithOffset` calls — the scan started at `0` performs `4` loop
iterations. -/
theorem claim_C8_counterexample :
    ((((NewGenerator 2 3).AllocateWithOffset 0).2.AllocateWithOffset 1).2.AllocateWithOffset
        2).2.valueRange = 2 ∧
      allocateWithOffsetSteps
        ((((NewGenerator 2 3).AllocateWithOffset 0).2.AllocateWithOffset 1).2.AllocateWithOffset
          2).2.usedMap
        ((((NewGenerator 2 3).AllocateWithOffset 0).2.AllocateWithOffset 1).2.AllocateWithOffset
          2).2.maxValue
        0 = 4 := by
  have e0 : ((NewGenerator 2 3).AllocateWithOffset 0).2
      = (⟨2, 3, 2, 0, {0}⟩ : IDGenerator) := by
    rw [AllocateWithOffset_not_mem (NewGenerator 2 3) 0 (by decide)]
    decide
  have e1 : ((⟨2, 3, 2, 0, {0}⟩ : IDGenerator).AllocateWithOffset 1).2
      = (⟨2, 3, 2, 0, {1, 0}⟩ : IDGenerator) := by
    rw [AllocateWithOffset_not_mem (⟨2, 3, 2, 0, {0}⟩ : IDGenerator) 1 (by decide)]
  have e2 : ((⟨2, 3, 2, 0, {1, 0}⟩ : IDGenerator).AllocateWithOffset 2).2
      = (⟨2, 3, 2, 0, {2, 1, 0}⟩ : IDGenerator) := by
    rw [AllocateWithOffset_not_mem (⟨2, 3, 2, 0, {1, 0}⟩ : IDGenerator) 2 (by decide)]
  rw [e0, e1, e2]
  refine ⟨rfl, ?_⟩
  rw [allocateWithOffsetSteps, if_pos (by decide), dif_neg (by decide),
    allocateWithOffsetSteps, if_pos (by decide), dif_neg (by decide),
    allocateWithOffsetSteps, if_pos (by decide), dif_neg (by decide),
    allocateWithOffsetSteps, if_neg (by decide)]

/-- C8 amended: every operation terminates; the `Allocate` scan executes
at most `size` iterations (its answer is already reached with fuel
`size`, so larger fuel changes nothing), while the `AllocateWithOffset`
scan executes at most `maxValue + 1 - current` iterations plus one — a
bound that can exceed `size` when the starting offset lies below
`minValue`. -/
theorem claim_C8_termination_amended :
    (∀ (m : Finset Int) (vR off0 off : Int),
        allocateSteps m vR off0 vR.toNat off ≤ vR.toNat) ∧
      (∀ (m : Finset Int) (maxValue current : Int),
        allocateWithOffsetSteps m maxValue current
          ≤ (maxValue + 1 - current).toNat + 1) ∧
      (∀ (m : Finset Int) (vR off0 : Int) (fuel : Nat),
        0 ≤ off0 → off0 < vR → vR.toNat ≤ fuel →
        allocateLoop m vR off0 fuel off0 = allocateLoop m vR off0 vR.toNat off0) :=
  ⟨fun m vR off0 off => allocateSteps_le_fuel m vR off0 vR.toNat off,
    fun m maxValue current => allocateWithOffsetSteps_le m maxValue current,
    fun m vR off0 fuel h1 h2 h3 => allocateLoop_stable m vR off0 h1 h2 fuel h3⟩

/-- C8 witness: fuel-stability of the `Allocate` scan instantiated on a
concrete empty allocator of size 3 with surplus fuel. -/
theorem claim_C8_witness :
    allocateLoop ∅ 3 0 5 0 = allocateLoop ∅ 3 0 (3 : Int).toNat 0 :=
  claim_C8_termination_amended.2.2 ∅ 3 0 5 (by decide) (by decide) (by decide)

/-- C5 witness: the exhaustion characterization of `AllocateWithOffset`
instantiated on a fresh allocator over `[1, 10]` at offset `5`. -/
theorem claim_C5_witness :
    ((NewGenerator 1 10).AllocateWithOffset 5).1 = none ↔
      ((5 : Int) ∈ (NewGenerator 1 10).usedMap ∧
        ∀ p : Int, 5 ≤ p → p ≤ (NewGenerator 1 10).maxValue →
          p ∈ (NewGenerator 1 10).usedMap) :=
  claim_C5_exhaustion_amended.1 (NewGenerator 1 10) 5
